import Mathlib

/-!
Shallow embedding of `src/detector/yolo.py` (tetutaro/yolo_various_platforms):
the YOLO decode pipeline (`Yolo.sigmoid`, `Yolo.apply_anchors`, `Yolo.inference`),
the backend selector (`Yolo.__init__`), and the adapter output handling
(`YoloTFOnnx.inference`, `YoloTF.inference`, `YoloTFLite.inference`).

Machine floats are modelled by real numbers; tensors are modelled by their
index functions and shapes; Python dict lookups that can raise `KeyError`
are modelled with `Option`.
-/

namespace YoloSpec

/-- `IMAGE_SIZES` dict from yolo.py. -/
def imageSizes (model : String) : Option Nat :=
  if model = "yolov3-tiny" then some 512
  else if model = "yolov3" then some 512
  else if model = "yolov4-tiny" then some 512
  else if model = "yolov4" then some 512
  else if model = "yolov4-csp" then some 640
  else if model = "yolov4x-mish" then some 640
  else none

/-- `STRIDE_ANCHORS` dict from yolo.py: per model, per stride, the three
(width, height) anchor priors. -/
def strideAnchors (model : String) (stride : Nat) : Option (List (Nat × Nat)) :=
  if model = "yolov3-tiny" then
    if stride = 16 then some [(10, 14), (23, 27), (37, 58)]
    else if stride = 32 then some [(81, 82), (135, 169), (344, 319)]
    else none
  else if model = "yolov3" then
    if stride = 8 then some [(10, 13), (16, 30), (33, 23)]
    else if stride = 16 then some [(30, 61), (62, 45), (59, 119)]
    else if stride = 32 then some [(116, 90), (156, 198), (373, 326)]
    else none
  else if model = "yolov4" then
    if stride = 8 then some [(12, 16), (19, 36), (40, 28)]
    else if stride = 16 then some [(36, 75), (76, 55), (72, 146)]
    else if stride = 32 then some [(142, 110), (192, 243), (459, 401)]
    else none
  else none

/-- `STRIDE_XYSCALES` dict from yolo.py (given as exact rationals; the Python
literals 1.0, 1.05, 1.1, 1.2 denote these values). -/
def strideXyscales (model : String) (stride : Nat) : Option ℚ :=
  if model = "yolov3-tiny" then
    if stride = 16 then some 1 else if stride = 32 then some 1 else none
  else if model = "yolov3" then
    if stride = 8 then some 1 else if stride = 16 then some 1
    else if stride = 32 then some 1 else none
  else if model = "yolov4" then
    if stride = 8 then some (21/20) else if stride = 16 then some (11/10)
    else if stride = 32 then some (6/5) else none
  else none

/-- The clamp bound used by `Yolo.sigmoid` (`sigmoid_range` in yolo.py). -/
noncomputable def sigmoidRange : ℝ := 34.538776394910684

/-- An input value to `Yolo.sigmoid`: a finite float (modelled as a real)
or one of the two floating-point infinities. -/
inductive RVal : Type
  | fin (x : ℝ) : RVal
  | pinf : RVal
  | ninf : RVal

/-- `np.clip(x, -sigmoid_range, sigmoid_range)` from `Yolo.sigmoid`:
`clip` is `minimum (maximum x lo) hi`; `+inf` clips to the upper bound and
`-inf` to the lower bound. -/
noncomputable def clampR : RVal → ℝ
  | RVal.fin x => min (max x (-sigmoidRange)) sigmoidRange
  | RVal.pinf => sigmoidRange
  | RVal.ninf => -sigmoidRange

/-- `Yolo.sigmoid` on a possibly-infinite input:
`1.0 / (1.0 + np.exp(-clipped))`. -/
noncomputable def sigmoidFull (v : RVal) : ℝ :=
  1 / (1 + Real.exp (-(clampR v)))

/-- `Yolo.sigmoid` on a finite input, as used by `Yolo.apply_anchors`. -/
noncomputable def sigmoid (x : ℝ) : ℝ := sigmoidFull (RVal.fin x)

lemma sigmoidRange_pos : 0 < sigmoidRange := by
  unfold sigmoidRange; norm_num

lemma neg_sigmoidRange_le : -sigmoidRange ≤ sigmoidRange :=
  le_trans (neg_nonpos_of_nonneg sigmoidRange_pos.le) sigmoidRange_pos.le

lemma clampR_mem (v : RVal) : -sigmoidRange ≤ clampR v ∧ clampR v ≤ sigmoidRange := by
  cases v with
  | fin x =>
      constructor
      · exact le_min (le_max_right x (-sigmoidRange)) neg_sigmoidRange_le
      · exact min_le_right _ _
  | pinf => exact ⟨neg_sigmoidRange_le, le_refl _⟩
  | ninf => exact ⟨le_refl _, neg_sigmoidRange_le⟩

lemma one_add_exp_pos (y : ℝ) : 0 < 1 + Real.exp y :=
  lt_trans one_pos (by linarith [Real.exp_pos y])

lemma sigmoidFull_pos (v : RVal) : 0 < sigmoidFull v := by
  unfold sigmoidFull
  exact div_pos one_pos (one_add_exp_pos _)

lemma sigmoidFull_lt_one (v : RVal) : sigmoidFull v < 1 := by
  unfold sigmoidFull
  rw [div_lt_one (one_add_exp_pos _)]
  linarith [Real.exp_pos (-(clampR v))]

lemma sigmoid_pos (x : ℝ) : 0 < sigmoid x := sigmoidFull_pos _

lemma sigmoid_lt_one (x : ℝ) : sigmoid x < 1 := sigmoidFull_lt_one _

lemma clampR_zero : clampR (RVal.fin 0) = 0 := by
  show min (max 0 (-sigmoidRange)) sigmoidRange = 0
  rw [max_eq_left (neg_nonpos_of_nonneg sigmoidRange_pos.le),
    min_eq_left sigmoidRange_pos.le]

lemma sigmoid_zero : sigmoid 0 = 1 / 2 := by
  unfold sigmoid sigmoidFull
  rw [clampR_zero, neg_zero, Real.exp_zero]
  norm_num

/-- One raw per-stride feature map as `Yolo.apply_anchors` sees it after
`np.reshape(pred, (anchor_size, anchor_size, 3, 85))`: a square grid of
`size × size` cells, 3 anchors per cell, 85 channels per anchor
(xy = channels 0-1, wh = channels 2-3, objectness = channel 4,
class probabilities = channels 5-84, so num_classes = 80). -/
structure FeatureMap : Type where
  size : Nat
  val : Nat → Nat → Nat → Nat → ℝ

/-- A decoded anchor box: one row of the `(-1, 85)` array built by
`Yolo.apply_anchors` (center x, center y, width, height, objectness,
80 class probabilities). -/
structure Box : Type where
  x : ℝ
  y : ℝ
  w : ℝ
  h : ℝ
  conf : ℝ
  prob : List ℝ

/-- The grid-sensitivity correction applied to a sigmoid-decoded center
coordinate in `Yolo.apply_anchors`:
`(sigmoid(raw) * xyscale - 0.5 * (xyscale - 1)) + offset`. -/
noncomputable def gridCorrect (xyscale raw offset : ℝ) : ℝ :=
  (sigmoid raw * xyscale - 0.5 * (xyscale - 1)) + offset

/-- Decoding of one anchor box at grid cell (row `i`, column `j`), anchor
index `a`, in `Yolo.apply_anchors`.  The `np.meshgrid` offset at cell
(i, j) is (column j, row i); `xy` is corrected, offset and scaled by the
stride; `wh` is `np.exp(wh) * anchor`; objectness and class probabilities
go through the clamped sigmoid. -/
noncomputable def decodeCell (stride : Nat) (xyscale : ℝ)
    (anchorList : List (Nat × Nat)) (fm : FeatureMap) (i j a : Nat) : Box :=
  let anchor := anchorList.getD a (0, 0)
  { x := gridCorrect xyscale (fm.val i j a 0) j * stride
    y := gridCorrect xyscale (fm.val i j a 1) i * stride
    w := Real.exp (fm.val i j a 2) * anchor.1
    h := Real.exp (fm.val i j a 3) * anchor.2
    conf := sigmoid (fm.val i j a 4)
    prob := (List.range 80).map (fun c => sigmoid (fm.val i j a (5 + c))) }

/-- The body of the `for` loop of `Yolo.apply_anchors` for one feature map:
infer `stride = image_size // anchor_size`, look up the anchor priors and
the xyscale for that stride (a missing dict key is a `KeyError`, modelled
as `none`), decode every cell, and flatten the `(size, size, 3)` axes in
C (row-major) order exactly as `np.reshape(bbox, (-1, 85))` does: flat
index `k` holds cell `(k / (3*size), (k / 3) % size)`, anchor `k % 3`. -/
noncomputable def decodeMap (model : String) (fm : FeatureMap) :
    Option (List Box) :=
  match imageSizes model with
  | none => none
  | some imgSize =>
    let stride := imgSize / fm.size
    match strideAnchors model stride, strideXyscales model stride with
    | some anchorList, some xyscale =>
        some ((List.range (fm.size * fm.size * 3)).map (fun k =>
          decodeCell stride (xyscale : ℝ) anchorList fm
            (k / (3 * fm.size)) (k / 3 % fm.size) (k % 3)))
    | _, _ => none

/-- `Yolo.apply_anchors`: decode each feature map in the order the backend
returned them and concatenate the per-map box lists
(`np.concatenate(applied, axis=0)`). -/
noncomputable def apply_anchors (model : String) :
    List FeatureMap → Option (List Box)
  | [] => some []
  | fm :: rest =>
      match decodeMap model fm, apply_anchors model rest with
      | some bs, some rest' => some (bs ++ rest')
      | _, _ => none

/-- Maximum of a list of reals, as `np.ndarray.max` computes it on a
nonempty axis (the class axis always has length 80; the `[]` case is
unreachable there). -/
noncomputable def listMax : List ℝ → ℝ
  | [] => 0
  | x :: xs => xs.foldl max x

/-- First index attaining the maximum, as `np.ndarray.argmax` computes it
on a nonempty axis. -/
noncomputable def argmaxIdx (l : List ℝ) : Nat := l.indexOf (listMax l)

/-- The per-box class-confidence vector of `Yolo.inference`:
`cat_conf = conf * prob`, raised elementwise to the power 0.3 when the
configured model is 'yolov3-tiny'. -/
noncomputable def catConfList (model : String) (conf : ℝ) (prob : List ℝ) :
    List ℝ :=
  let base := prob.map (fun p => conf * p)
  if model = "yolov3-tiny" then base.map (fun c => c ^ (0.3 : ℝ)) else base

/-- A corner-form bounding box (x_min, y_min, x_max, y_max). -/
structure XYXY : Type where
  x1 : ℝ
  y1 : ℝ
  x2 : ℝ
  y2 : ℝ

/-- One row of the final detection matrix of `Yolo.inference`:
(x_min, y_min, x_max, y_max, category id, confidence). -/
structure DetRow : Type where
  x1 : ℝ
  y1 : ℝ
  x2 : ℝ
  y2 : ℝ
  cat : ℝ
  conf : ℝ

/-- The six columns of a detection row as the homogeneous float array row
`np.concatenate((xyxy, cat, conf), axis=1)` emits them. -/
def DetRow.cols (r : DetRow) : List ℝ := [r.x1, r.y1, r.x2, r.y2, r.cat, r.conf]

/-- The corner-form box of a decoded anchor box before rescaling, from
`Yolo.inference`: `min = center - 0.5 * size`, `max = center + 0.5 * size`. -/
noncomputable def toCorners (b : Box) : XYXY :=
  { x1 := b.x - b.w * 0.5, y1 := b.y - b.h * 0.5
    x2 := b.x + b.w * 0.5, y2 := b.y + b.h * 0.5 }

/-- The per-row tail of `Yolo.inference` after `apply_anchors`: convert the
center-form box to corner form, rescale it with the session's
`rescale_xyxy` (external; modelled as a per-row function parameter),
compute the class-confidence vector, and emit
(xyxy, argmax index cast to float, max confidence). -/
noncomputable def postprocessBox (model : String) (rescale : XYXY → XYXY)
    (b : Box) : DetRow :=
  let c := rescale (toCorners b)
  let cc := catConfList model b.conf b.prob
  { x1 := c.x1, y1 := c.y1, x2 := c.x2, y2 := c.y2
    cat := (argmaxIdx cc : ℝ), conf := listMax cc }

/-- `Yolo.inference`: decode all feature maps with `apply_anchors`, then
postprocess every row; no row is dropped, reordered or deduplicated. -/
noncomputable def inference (model : String) (rescale : XYXY → XYXY)
    (preds : List FeatureMap) : Option (List DetRow) :=
  match apply_anchors model preds with
  | none => none
  | some boxes => some (boxes.map (postprocessBox model rescale))

/-- The adapter classes `Yolo.__init__` can construct. -/
inductive FrameworkKind : Type
  | yoloTF : FrameworkKind
  | yoloTFLite : FrameworkKind
  | yoloTFOnnx : FrameworkKind
deriving DecidableEq

/-- The backend selector of `Yolo.__init__`: 'tf' builds `YoloTF`,
'tflite' builds `YoloTFLite`, 'tf_onnx' builds `YoloTFOnnx`, and any
other identifier raises `SystemError(f'YOLO unsupport ...')`. -/
def selectFramework (framework : String) : Except String FrameworkKind :=
  if framework = "tf" then Except.ok FrameworkKind.yoloTF
  else if framework = "tflite" then Except.ok FrameworkKind.yoloTFLite
  else if framework = "tf_onnx" then Except.ok FrameworkKind.yoloTFOnnx
  else Except.error ("YOLO unsupport " ++ framework)

/-- The backend identifiers `Yolo.__init__` accepts. -/
def supportedFrameworks : List String := ["tf", "tflite", "tf_onnx"]

/-- `np.squeeze(x, 0)` on a tensor shape, as used by `YoloTFOnnx.inference`
and `YoloTFLite.inference`: removes axis 0 and raises if its size is not 1. -/
def squeezeAxis0 (shape : List Nat) : Option (List Nat) :=
  match shape with
  | 1 :: rest => some rest
  | _ => none

/-- `tf.squeeze(x)` on a tensor shape, as used by `YoloTF.inference`:
with no axis argument it removes every axis of size 1. -/
def tfSqueezeAll (shape : List Nat) : List Nat :=
  shape.filter (fun d => ¬ d = 1)

/-- The output handling of `YoloTFOnnx.inference` at the shape level:
`preds = [np.squeeze(x, 0).copy() for x in preds]`. -/
def yoloTFOnnxOutputs (shapes : List (List Nat)) : Option (List (List Nat)) :=
  shapes.mapM squeezeAxis0

/-- The output handling of `YoloTF.inference` at the shape level:
`preds = [tf.squeeze(x).numpy() for x in preds]`. -/
def yoloTFOutputs (shapes : List (List Nat)) : List (List Nat) :=
  shapes.map tfSqueezeAll

/-- The int8 branch of `YoloTFLite.inference` (values as exact rationals):
for each output index paired with its quantization parameters,
`out = (raw.astype(np.float32) - zero_points) * scales`. -/
def yoloTFLiteInt8 (outputs : List (List ℚ)) (quantParams : List (ℚ × ℚ)) :
    List (List ℚ) :=
  (outputs.zip quantParams).map
    (fun rp => rp.1.map (fun v => (v - rp.2.1) * rp.2.2))

/-! ### Helper lemmas about the decode pipeline -/

lemma decodeMap_eq_some {model : String} {fm : FeatureMap} {imgSize : Nat}
    {anchorList : List (Nat × Nat)} {xyscale : ℚ}
    (hImg : imageSizes model = some imgSize)
    (hanch : strideAnchors model (imgSize / fm.size) = some anchorList)
    (hscale : strideXyscales model (imgSize / fm.size) = some xyscale) :
    decodeMap model fm =
      some ((List.range (fm.size * fm.size * 3)).map (fun k =>
        decodeCell (imgSize / fm.size) (xyscale : ℝ) anchorList fm
          (k / (3 * fm.size)) (k / 3 % fm.size) (k % 3))) := by
  unfold decodeMap
  rw [hImg]
  simp only [hanch, hscale]

lemma decodeMap_spec {model : String} {fm : FeatureMap} {boxes : List Box}
    (h : decodeMap model fm = some boxes) :
    ∃ (imgSize : Nat) (anchorList : List (Nat × Nat)) (xyscale : ℚ),
      imageSizes model = some imgSize ∧
      strideAnchors model (imgSize / fm.size) = some anchorList ∧
      strideXyscales model (imgSize / fm.size) = some xyscale ∧
      boxes = (List.range (fm.size * fm.size * 3)).map (fun k =>
        decodeCell (imgSize / fm.size) (xyscale : ℝ) anchorList fm
          (k / (3 * fm.size)) (k / 3 % fm.size) (k % 3)) := by
  unfold decodeMap at h
  rcases hImg : imageSizes model with _ | imgSize
  · rw [hImg] at h; exact absurd h (by simp)
  rw [hImg] at h
  rcases hanch : strideAnchors model (imgSize / fm.size) with _ | anchorList
  · simp only [hanch] at h
    exact absurd h (by simp)
  rcases hscale : strideXyscales model (imgSize / fm.size) with _ | xyscale
  · simp only [hanch, hscale] at h
    exact absurd h (by simp)
  simp only [hanch, hscale, Option.some.injEq] at h
  exact ⟨imgSize, anchorList, xyscale, rfl, hanch, hscale, h.symm⟩

lemma decodeMap_length {model : String} {fm : FeatureMap} {boxes : List Box}
    (h : decodeMap model fm = some boxes) :
    boxes.length = fm.size * fm.size * 3 := by
  obtain ⟨imgSize, anchorList, xyscale, _, _, _, hb⟩ := decodeMap_spec h
  simp [hb]

lemma decodeMap_mem {model : String} {fm : FeatureMap} {boxes : List Box}
    {b : Box} (h : decodeMap model fm = some boxes) (hb : b ∈ boxes) :
    ∃ (imgSize : Nat) (anchorList : List (Nat × Nat)) (xyscale : ℚ)
      (i j a : Nat),
      imageSizes model = some imgSize ∧
      strideAnchors model (imgSize / fm.size) = some anchorList ∧
      a < 3 ∧
      b = decodeCell (imgSize / fm.size) (xyscale : ℝ) anchorList fm i j a := by
  obtain ⟨imgSize, anchorList, xyscale, hImg, hanch, hscale, hbx⟩ :=
    decodeMap_spec h
  subst hbx
  obtain ⟨k, _, hk⟩ := List.mem_map.mp hb
  exact ⟨imgSize, anchorList, xyscale, k / (3 * fm.size), k / 3 % fm.size,
    k % 3, hImg, hanch, Nat.mod_lt _ (by norm_num), hk.symm⟩

lemma apply_anchors_spec {model : String} :
    ∀ {preds : List FeatureMap} {boxes : List Box},
    apply_anchors model preds = some boxes →
    boxes.length = 3 * (preds.map (fun fm => fm.size * fm.size)).sum ∧
    ∀ b ∈ boxes, ∃ fm ∈ preds, ∃ bs, decodeMap model fm = some bs ∧ b ∈ bs := by
  intro preds
  induction preds with
  | nil =>
      intro boxes h
      simp only [apply_anchors, Option.some.injEq] at h
      subst h
      simp
  | cons fm rest ih =>
      intro boxes h
      unfold apply_anchors at h
      rcases hdec : decodeMap model fm with _ | bs
      · rw [hdec] at h; exact absurd h (by simp)
      rcases hrest : apply_anchors model rest with _ | bs'
      · rw [hdec, hrest] at h; exact absurd h (by simp)
      rw [hdec, hrest] at h
      simp only [Option.some.injEq] at h
      subst h
      obtain ⟨hlen, hmem⟩ := ih hrest
      constructor
      · simp only [List.length_append, hlen, decodeMap_length hdec,
          List.map_cons, List.sum_cons]
        ring
      · intro b hb
        rcases List.mem_append.mp hb with hb1 | hb1
        · exact ⟨fm, List.mem_cons_self _ _, bs, hdec, hb1⟩
        · obtain ⟨fm', hfm', bs'', hbs'', hb''⟩ := hmem b hb1
          exact ⟨fm', List.mem_cons_of_mem _ hfm', bs'', hbs'', hb''⟩

lemma strideAnchors_entries {model : String} {s : Nat} {l : List (Nat × Nat)}
    (h : strideAnchors model s = some l) :
    l.length = 3 ∧ ∀ p ∈ l, 0 < p.1 ∧ 0 < p.2 := by
  unfold strideAnchors at h
  split_ifs at h <;> injection h with h2 <;> subst h2 <;> decide

lemma foldl_max_mem (l : List ℝ) : ∀ x : ℝ, l.foldl max x ∈ x :: l := by
  induction l with
  | nil => intro x; simp
  | cons y ys ih =>
      intro x
      have h := ih (max x y)
      rw [List.foldl_cons]
      rcases List.mem_cons.mp h with h1 | h1
      · rw [h1]
        rcases max_choice x y with h2 | h2 <;> rw [h2]
        · exact List.mem_cons_self _ _
        · exact List.mem_cons_of_mem _ (List.mem_cons_self _ _)
      · exact List.mem_cons_of_mem _ (List.mem_cons_of_mem _ h1)

lemma listMax_mem {l : List ℝ} (h : l ≠ []) : listMax l ∈ l := by
  cases l with
  | nil => exact absurd rfl h
  | cons x xs =>
      have := foldl_max_mem xs x
      simpa [listMax] using this

lemma argmaxIdx_lt_length {l : List ℝ} (h : l ≠ []) :
    argmaxIdx l < l.length :=
  List.indexOf_lt_length.mpr (listMax_mem h)

lemma decodeCell_conf_bounds (stride : Nat) (xyscale : ℝ)
    (anchorList : List (Nat × Nat)) (fm : FeatureMap) (i j a : Nat) :
    0 < (decodeCell stride xyscale anchorList fm i j a).conf ∧
    (decodeCell stride xyscale anchorList fm i j a).conf < 1 :=
  ⟨sigmoid_pos _, sigmoid_lt_one _⟩

lemma decodeCell_prob_length (stride : Nat) (xyscale : ℝ)
    (anchorList : List (Nat × Nat)) (fm : FeatureMap) (i j a : Nat) :
    (decodeCell stride xyscale anchorList fm i j a).prob.length = 80 := by
  simp [decodeCell]

lemma decodeCell_prob_bounds (stride : Nat) (xyscale : ℝ)
    (anchorList : List (Nat × Nat)) (fm : FeatureMap) (i j a : Nat) :
    ∀ p ∈ (decodeCell stride xyscale anchorList fm i j a).prob,
      0 < p ∧ p < 1 := by
  intro p hp
  simp only [decodeCell, List.mem_map] at hp
  obtain ⟨c, _, hc⟩ := hp
  exact hc ▸ ⟨sigmoid_pos _, sigmoid_lt_one _⟩

lemma decodeCell_wh_pos {anchorList : List (Nat × Nat)} {a : Nat}
    (stride : Nat) (xyscale : ℝ) (fm : FeatureMap) (i j : Nat)
    (hlen : anchorList.length = 3) (ha : a < 3)
    (hpos : ∀ p ∈ anchorList, 0 < p.1 ∧ 0 < p.2) :
    0 < (decodeCell stride xyscale anchorList fm i j a).w ∧
    0 < (decodeCell stride xyscale anchorList fm i j a).h := by
  have hmem : anchorList.getD a (0, 0) ∈ anchorList := by
    have hlt : a < anchorList.length := hlen ▸ ha
    rw [List.getD_eq_getElem?_getD, List.getElem?_eq_getElem hlt,
      Option.getD_some]
    exact List.getElem_mem hlt
  obtain ⟨h1, h2⟩ := hpos _ hmem
  constructor
  · exact mul_pos (Real.exp_pos _) (by exact_mod_cast h1)
  · exact mul_pos (Real.exp_pos _) (by exact_mod_cast h2)

lemma catConfList_length (model : String) (conf : ℝ) (prob : List ℝ) :
    (catConfList model conf prob).length = prob.length := by
  unfold catConfList
  split_ifs <;> simp

lemma catConfList_bounds {conf : ℝ} {prob : List ℝ} (model : String)
    (hc : 0 < conf ∧ conf < 1) (hp : ∀ p ∈ prob, 0 < p ∧ p < 1) :
    ∀ c ∈ catConfList model conf prob, 0 < c ∧ c < 1 := by
  intro c hcm
  have base : ∀ b ∈ prob.map (fun p => conf * p), 0 < b ∧ b < 1 := by
    intro b hb
    simp only [List.mem_map] at hb
    obtain ⟨p, hpm, hpb⟩ := hb
    obtain ⟨hp1, hp2⟩ := hp p hpm
    subst hpb
    refine ⟨mul_pos hc.1 hp1, ?_⟩
    nlinarith [hc.1, hc.2, hp1, hp2]
  unfold catConfList at hcm
  split_ifs at hcm
  · obtain ⟨b, hbm, hbc⟩ := List.mem_map.mp hcm
    obtain ⟨hb1, hb2⟩ := base b hbm
    subst hbc
    exact ⟨Real.rpow_pos_of_pos hb1 _,
      Real.rpow_lt_one hb1.le hb2 (by norm_num)⟩
  · exact base c hcm

lemma postprocessBox_cat_eq (model : String) (rescale : XYXY → XYXY)
    (b : Box) :
    (postprocessBox model rescale b).cat =
      ((argmaxIdx (catConfList model b.conf b.prob) : Nat) : ℝ) := rfl

lemma postprocessBox_conf_eq (model : String) (rescale : XYXY → XYXY)
    (b : Box) :
    (postprocessBox model rescale b).conf =
      listMax (catConfList model b.conf b.prob) := rfl

lemma postprocessBox_spec {b : Box} (model : String) (rescale : XYXY → XYXY)
    (hc : 0 < b.conf ∧ b.conf < 1) (hlen : b.prob.length = 80)
    (hp : ∀ p ∈ b.prob, 0 < p ∧ p < 1) :
    (∃ n : Nat, (postprocessBox model rescale b).cat = (n : ℝ) ∧ n < 80) ∧
    0 < (postprocessBox model rescale b).conf ∧
    (postprocessBox model rescale b).conf < 1 := by
  have hccl := catConfList_length model b.conf b.prob
  have hne : catConfList model b.conf b.prob ≠ [] := by
    intro hnil
    rw [hnil] at hccl
    rw [hlen] at hccl
    exact absurd hccl.symm (by norm_num)
  have hbounds := catConfList_bounds model hc hp
  refine ⟨⟨argmaxIdx (catConfList model b.conf b.prob),
    postprocessBox_cat_eq model rescale b, ?_⟩, ?_, ?_⟩
  · have h := argmaxIdx_lt_length hne
    rwa [hccl, hlen] at h
  · rw [postprocessBox_conf_eq]
    exact (hbounds _ (listMax_mem hne)).1
  · rw [postprocessBox_conf_eq]
    exact (hbounds _ (listMax_mem hne)).2

lemma apply_anchors_box_props {model : String} {preds : List FeatureMap}
    {boxes : List Box} (h : apply_anchors model preds = some boxes) :
    ∀ b ∈ boxes,
      (0 < b.conf ∧ b.conf < 1) ∧ b.prob.length = 80 ∧
      (∀ p ∈ b.prob, 0 < p ∧ p < 1) ∧ 0 < b.w ∧ 0 < b.h := by
  intro b hb
  obtain ⟨fm, _, bs, hbs, hbmem⟩ := (apply_anchors_spec h).2 b hb
  obtain ⟨imgSize, anchorList, xyscale, i, j, a, _, hanch, ha3, hbeq⟩ :=
    decodeMap_mem hbs hbmem
  obtain ⟨hlen3, hpos⟩ := strideAnchors_entries hanch
  subst hbeq
  obtain ⟨hw, hh⟩ := decodeCell_wh_pos (imgSize / fm.size) (xyscale : ℝ)
    fm _ _ hlen3 ha3 hpos
  exact ⟨decodeCell_conf_bounds _ _ _ _ _ _ _,
    decodeCell_prob_length _ _ _ _ _ _ _,
    decodeCell_prob_bounds _ _ _ _ _ _ _, hw, hh⟩

lemma flat_index_lt {n i j a : Nat} (hi : i < n) (hj : j < n) (ha : a < 3) :
    (i * n + j) * 3 + a < n * n * 3 := by
  have h1 : i * n + j < n * n := by
    calc i * n + j < i * n + n := by omega
    _ = (i + 1) * n := by ring
    _ ≤ n * n := Nat.mul_le_mul_right n (Nat.succ_le_of_lt hi)
  calc (i * n + j) * 3 + a < (i * n + j) * 3 + 3 := by omega
  _ = ((i * n + j) + 1) * 3 := by ring
  _ ≤ (n * n) * 3 := Nat.mul_le_mul_right 3 (Nat.succ_le_of_lt h1)

lemma flat_index_components {n i j a : Nat} (hj : j < n)
    (ha : a < 3) :
    ((i * n + j) * 3 + a) / (3 * n) = i ∧
    ((i * n + j) * 3 + a) / 3 % n = j ∧
    ((i * n + j) * 3 + a) % 3 = a := by
  refine ⟨?_, ?_, ?_⟩
  · have h1 : (i * n + j) * 3 + a = (j * 3 + a) + (3 * n) * i := by ring
    rw [h1, Nat.add_mul_div_left _ _ (by omega : 0 < 3 * n)]
    have h2 : j * 3 + a < 3 * n := by
      calc j * 3 + a < (j + 1) * 3 := by omega
      _ ≤ n * 3 := Nat.mul_le_mul_right 3 (Nat.succ_le_of_lt hj)
      _ = 3 * n := by ring
    rw [Nat.div_eq_of_lt h2]
    omega
  · have h1 : (i * n + j) * 3 + a = a + 3 * (i * n + j) := by ring
    rw [h1, Nat.add_mul_div_left _ _ (by omega : 0 < 3),
      Nat.div_eq_of_lt ha]
    have h2 : 0 + (i * n + j) = j + n * i := by ring
    rw [h2, Nat.add_mul_mod_self_left, Nat.mod_eq_of_lt hj]
  · have h1 : (i * n + j) * 3 + a = a + 3 * (i * n + j) := by ring
    rw [h1, Nat.add_mul_mod_self_left, Nat.mod_eq_of_lt ha]

lemma decodeMap_get {model : String} {fm : FeatureMap} {boxes : List Box}
    {imgSize : Nat} {anchorList : List (Nat × Nat)} {xyscale : ℚ}
    (hImg : imageSizes model = some imgSize)
    (hanch : strideAnchors model (imgSize / fm.size) = some anchorList)
    (hscale : strideXyscales model (imgSize / fm.size) = some xyscale)
    (hdec : decodeMap model fm = some boxes)
    (k : Nat) (hk : k < boxes.length) :
    boxes.get ⟨k, hk⟩ =
      decodeCell (imgSize / fm.size) (xyscale : ℝ) anchorList fm
        (k / (3 * fm.size)) (k / 3 % fm.size) (k % 3) := by
  have heq := (decodeMap_eq_some hImg hanch hscale).symm.trans hdec
  have hbx := Option.some.inj heq
  subst hbx
  have hk2 : k < (List.range (fm.size * fm.size * 3)).length := by
    simpa using hk
  simp [List.get_eq_getElem, List.getElem_map, List.getElem_range]

lemma decodeCell_zero {fm : FeatureMap}
    (hzero : ∀ i j a c, fm.val i j a c = 0)
    (stride : Nat) (anchorList : List (Nat × Nat)) (i j a : Nat) :
    (decodeCell stride ((1 : ℚ) : ℝ) anchorList fm i j a).x
        = ((j : ℝ) + 0.5) * (stride : ℝ) ∧
    (decodeCell stride ((1 : ℚ) : ℝ) anchorList fm i j a).y
        = ((i : ℝ) + 0.5) * (stride : ℝ) ∧
    (decodeCell stride ((1 : ℚ) : ℝ) anchorList fm i j a).w
        = ((anchorList.getD a (0, 0)).1 : ℝ) ∧
    (decodeCell stride ((1 : ℚ) : ℝ) anchorList fm i j a).h
        = ((anchorList.getD a (0, 0)).2 : ℝ) := by
  have hg : ∀ r : ℝ, gridCorrect ((1 : ℚ) : ℝ) 0 r = 1 / 2 + r := by
    intro r
    unfold gridCorrect
    rw [sigmoid_zero]
    push_cast
    ring
  have h05 : (0.5 : ℝ) = 1 / 2 := by norm_num
  refine ⟨?_, ?_, ?_, ?_⟩
  · show gridCorrect _ (fm.val i j a 0) _ * _ = _
    rw [hzero, hg, h05]
    ring
  · show gridCorrect _ (fm.val i j a 1) _ * _ = _
    rw [hzero, hg, h05]
    ring
  · show Real.exp (fm.val i j a 2) * _ = _
    rw [hzero, Real.exp_zero, one_mul]
  · show Real.exp (fm.val i j a 3) * _ = _
    rw [hzero, Real.exp_zero, one_mul]

lemma apply_anchors_singleton {model : String} {fm : FeatureMap}
    {bs : List Box} (h : decodeMap model fm = some bs) :
    apply_anchors model [fm] = some bs := by
  simp only [apply_anchors, h, List.append_nil]

/-- The all-zero 16×16 feature map used as a concrete input. -/
noncomputable def zeroMap16 : FeatureMap :=
  FeatureMap.mk 16 (fun _ _ _ _ => 0)

lemma zeroMap16_zero : ∀ i j a c, zeroMap16.val i j a c = 0 :=
  fun _ _ _ _ => rfl

lemma zeroMap16_img : imageSizes "yolov3-tiny" = some 512 := by decide

lemma zeroMap16_anchors :
    strideAnchors "yolov3-tiny" (512 / zeroMap16.size) =
      some [(81, 82), (135, 169), (344, 319)] := by decide

lemma zeroMap16_scale :
    strideXyscales "yolov3-tiny" (512 / zeroMap16.size) = some 1 := rfl

lemma zeroMap16_decode :
    decodeMap "yolov3-tiny" zeroMap16 =
      some ((List.range (zeroMap16.size * zeroMap16.size * 3)).map (fun k =>
        decodeCell (512 / zeroMap16.size) ((1 : ℚ) : ℝ)
          [(81, 82), (135, 169), (344, 319)] zeroMap16
          (k / (3 * zeroMap16.size)) (k / 3 % zeroMap16.size) (k % 3))) :=
  decodeMap_eq_some zeroMap16_img zeroMap16_anchors zeroMap16_scale

/-! ### Claim theorems -/

/-- C3: for every input value — any finite magnitude, `+inf` or `-inf` —
`Yolo.sigmoid` first clamps its argument to ±34.538776394910684 and
returns a (finite real) value strictly greater than 0 and strictly less
than 1. -/
theorem sigmoid_clamped_open_unit_interval :
    sigmoidRange = 34.538776394910684 ∧
    (∀ v : RVal, -sigmoidRange ≤ clampR v ∧ clampR v ≤ sigmoidRange) ∧
    (∀ v : RVal, sigmoidFull v = 1 / (1 + Real.exp (-(clampR v)))) ∧
    (∀ x : ℝ, sigmoid x = sigmoidFull (RVal.fin x)) ∧
    (∀ v : RVal, 0 < sigmoidFull v ∧ sigmoidFull v < 1) :=
  ⟨rfl, clampR_mem, fun _ => rfl, fun _ => rfl,
    fun v => ⟨sigmoidFull_pos v, sigmoidFull_lt_one v⟩⟩

/-- C4: the backend selector of `Yolo.__init__` constructs the adapter
matching each of the three supported identifiers ('tf' → `YoloTF`,
'tflite' → `YoloTFLite`, 'tf_onnx' → `YoloTFOnnx`), and raises
`SystemError` at construction time for every other identifier. -/
theorem backend_selector_dispatch :
    selectFramework "tf" = Except.ok FrameworkKind.yoloTF ∧
    selectFramework "tflite" = Except.ok FrameworkKind.yoloTFLite ∧
    selectFramework "tf_onnx" = Except.ok FrameworkKind.yoloTFOnnx ∧
    ∀ fw : String, fw ∉ supportedFrameworks →
      selectFramework fw = Except.error ("YOLO unsupport " ++ fw) := by
  refine ⟨rfl, rfl, rfl, ?_⟩
  intro fw h
  simp only [supportedFrameworks, List.mem_cons, List.not_mem_nil,
    or_false] at h
  push_neg at h
  obtain ⟨h1, h2, h3⟩ := h
  simp [selectFramework, h1, h2, h3]

/-- Witness for C4: the identifier 'torch' is outside the supported set
and is rejected with the `SystemError` message. -/
theorem backend_selector_dispatch_witness :
    selectFramework "torch" = Except.error ("YOLO unsupport " ++ "torch") :=
  backend_selector_dispatch.2.2.2 "torch" (by decide)

/-- C5 counterexample: `YoloTF.inference` uses `tf.squeeze` with no axis
argument, which removes every axis of size 1 — on a raw output of shape
(1, 1, 2) it returns shape (2,), not shape (1, 2) as removing exactly the
leading batch axis would. -/
theorem tf_squeeze_removes_all_unit_axes :
    yoloTFOutputs [[1, 1, 2]] = [[2]] ∧
    ¬ ([[2]] : List (List Nat)) = [[1, 2]] := by decide

/-- C5 (amended): `YoloTFOnnx.inference` (`np.squeeze(x, 0)`) removes
exactly the leading batch axis, which must have size 1, preserving all
other axes and returning one tensor per output; `YoloTF.inference`
(`tf.squeeze(x)`) also returns one tensor per output but removes every
axis of size 1, which coincides with stripping only the batch axis
exactly when no other axis has size 1. -/
theorem adapter_batch_axis_stripping :
    (∀ (shapes out : List (List Nat)), yoloTFOnnxOutputs shapes = some out →
      out.length = shapes.length ∧
      ∀ t, out.get? t = (shapes.get? t).bind squeezeAxis0) ∧
    (∀ shape rest : List Nat, squeezeAxis0 shape = some rest ↔
      shape = 1 :: rest) ∧
    (∀ shapes : List (List Nat),
      (yoloTFOutputs shapes).length = shapes.length) ∧
    (∀ rest : List Nat, ¬ (1 ∈ rest) → tfSqueezeAll (1 :: rest) = rest) := by
  refine ⟨?_, ?_, ?_, ?_⟩
  · intro shapes
    induction shapes with
    | nil =>
        intro out h
        simp only [yoloTFOnnxOutputs, List.mapM_nil, Option.pure_def,
          Option.some.injEq] at h
        subst h
        exact ⟨rfl, fun t => by simp⟩
    | cons s rest ih =>
        intro out h
        simp only [yoloTFOnnxOutputs, List.mapM_cons] at h
        rcases hs : squeezeAxis0 s with _ | s'
        · rw [hs] at h; exact absurd h (by simp)
        rcases hr : rest.mapM squeezeAxis0 with _ | rest'
        · rw [hs, hr] at h; exact absurd h (by simp)
        rw [hs, hr] at h
        simp only [Option.bind_eq_bind, Option.some_bind, Option.pure_def,
          Option.some.injEq] at h
        subst h
        obtain ⟨hlen, hget⟩ := ih rest' hr
        refine ⟨by simp [hlen], ?_⟩
        intro t
        cases t with
        | zero => simp [hs]
        | succ t => simpa using hget t
  · intro shape rest
    constructor
    · intro h
      unfold squeezeAxis0 at h
      rcases shape with _ | ⟨d, tl⟩
      · exact absurd h (by simp)
      · rcases d with _ | d
        · exact absurd h (by simp)
        · rcases d with _ | d
          · simp only [Option.some.injEq] at h
            rw [h]
          · exact absurd h (by simp)
    · intro h
      subst h
      rfl
  · intro shapes
    simp [yoloTFOutputs]
  · intro rest h
    unfold tfSqueezeAll
    rw [List.filter_cons]
    simp only [decide_not, decide_eq_true_eq]
    rw [if_neg (by simp)]
    exact List.filter_eq_self.mpr (fun d hd => by
      simp only [decide_not, Bool.not_eq_eq_eq_not, Bool.not_true,
        decide_eq_false_iff_not]
      intro hd1
      exact h (hd1 ▸ hd))

/-- Witness for C5 (amended): a shape (1, 16, 255) with no interior unit
axis loses exactly its batch axis under both squeeze flavors. -/
theorem adapter_batch_axis_stripping_witness :
    (squeezeAxis0 [1, 16, 255] = some [16, 255] ↔
      ([1, 16, 255] : List Nat) = 1 :: [16, 255]) ∧
    tfSqueezeAll (1 :: [16, 255]) = [16, 255] :=
  ⟨adapter_batch_axis_stripping.2.1 [1, 16, 255] [16, 255],
    adapter_batch_axis_stripping.2.2.2 [16, 255] (by decide)⟩

/-- C6: the int8 branch of `YoloTFLite.inference` dequantizes every
element of every raw output tensor as `(raw - zero_point) * scale` with
that tensor's own parameters; in particular raw value 0 with
zero_point = 128 and scale = 0.5 gives exactly -64. -/
theorem tflite_int8_dequantization :
    (∀ (outputs : List (List ℚ)) (params : List (ℚ × ℚ))
      (t e : Nat) (raws : List ℚ) (zp scale : ℚ),
      (outputs.zip params).get? t = some (raws, (zp, scale)) →
      ∃ outs, (yoloTFLiteInt8 outputs params).get? t = some outs ∧
        outs.get? e = (raws.get? e).map (fun v => (v - zp) * scale)) ∧
    yoloTFLiteInt8 [[0]] [(128, 1 / 2)] = [[-64]] := by
  constructor
  · intro outputs params t e raws zp scale h
    refine ⟨raws.map (fun v => (v - zp) * scale), ?_, ?_⟩
    · unfold yoloTFLiteInt8
      rw [List.get?_eq_getElem?] at h ⊢
      rw [List.getElem?_map, h]
      rfl
    · rw [List.get?_eq_getElem?, List.get?_eq_getElem?,
        List.getElem?_map]
  · norm_num [yoloTFLiteInt8]

/-- Witness for C6: the single-tensor, single-element case with raw 0,
zero_point 128, scale 1/2. -/
theorem tflite_int8_dequantization_witness :
    ∃ outs, (yoloTFLiteInt8 [[0]] [(128, 1 / 2)]).get? 0 = some outs ∧
      outs.get? 0 = (([0] : List ℚ).get? 0).map
        (fun v => (v - 128) * (1 / 2)) :=
  tflite_int8_dequantization.1 [[0]] [(128, 1 / 2)] 0 0 [0] 128 (1 / 2) rfl

/-- C7: the 0.3-power confidence calibration of `Yolo.inference` is
applied exactly when the configured model is 'yolov3-tiny'; for any
other variant the class-confidence products are left unmodified, so two
otherwise-identical postprocessing runs that differ only in a non-tiny
variant flag agree. -/
theorem tiny_confidence_power_calibration :
    (∀ (conf : ℝ) (prob : List ℝ),
      catConfList "yolov3-tiny" conf prob =
        (prob.map (fun p => conf * p)).map (fun c => c ^ (0.3 : ℝ))) ∧
    (∀ model : String, ¬ model = "yolov3-tiny" →
      ∀ (conf : ℝ) (prob : List ℝ),
        catConfList model conf prob = prob.map (fun p => conf * p)) ∧
    (∀ m1 m2 : String, ¬ m1 = "yolov3-tiny" → ¬ m2 = "yolov3-tiny" →
      ∀ (rescale : XYXY → XYXY) (b : Box),
        postprocessBox m1 rescale b = postprocessBox m2 rescale b) := by
  refine ⟨?_, ?_, ?_⟩
  · intro conf prob
    simp [catConfList]
  · intro model h conf prob
    simp [catConfList, h]
  · intro m1 m2 h1 h2 rescale b
    unfold postprocessBox
    rw [show catConfList m1 b.conf b.prob = catConfList m2 b.conf b.prob by
      simp [catConfList, h1, h2]]

/-- Witness for C7: the 'yolov4' and 'yolov3' flags (both non-tiny)
postprocess one concrete decoded box identically. -/
theorem tiny_confidence_power_calibration_witness :
    postprocessBox "yolov4" (fun c => c) (Box.mk 0 0 2 2 (1 / 2) [1 / 2]) =
      postprocessBox "yolov3" (fun c => c) (Box.mk 0 0 2 2 (1 / 2) [1 / 2]) :=
  tiny_confidence_power_calibration.2.2 "yolov4" "yolov3"
    (by decide) (by decide) _ _

/-- C8: with grid scale 1.0 the grid-sensitivity correction of
`Yolo.apply_anchors` is the identity on the uncorrected sigmoid output
plus the grid-cell offset, and 1.0 is exactly the scale recorded in
`STRIDE_XYSCALES` for every stride of 'yolov3' and 'yolov3-tiny'. -/
theorem grid_correction_identity_at_scale_one :
    strideXyscales "yolov3" 8 = some 1 ∧
    strideXyscales "yolov3" 16 = some 1 ∧
    strideXyscales "yolov3" 32 = some 1 ∧
    strideXyscales "yolov3-tiny" 16 = some 1 ∧
    strideXyscales "yolov3-tiny" 32 = some 1 ∧
    ∀ raw offset : ℝ, gridCorrect 1 raw offset = sigmoid raw + offset := by
  refine ⟨rfl, rfl, rfl, rfl, rfl, ?_⟩
  intro raw offset
  unfold gridCorrect
  ring

/-- C1: whenever `Yolo.inference` succeeds on raw feature maps with grid
sizes g₁..g_k (3 anchors each), the detection matrix has exactly
3·(g₁² + … + g_k²) rows of 6 columns, one row per decoded anchor box in
insertion order (the rows are exactly the image of the decoded box list
under postprocessing — nothing filtered, sorted or deduplicated), with
every category id a natural number below 80 and every confidence in
[0, 1]. -/
theorem inference_one_row_per_anchor (model : String) (rescale : XYXY → XYXY)
    (preds : List FeatureMap) (rows : List DetRow)
    (h : inference model rescale preds = some rows) :
    rows.length = 3 * (preds.map (fun fm => fm.size * fm.size)).sum ∧
    (∃ boxes, apply_anchors model preds = some boxes ∧
      rows = boxes.map (postprocessBox model rescale)) ∧
    ∀ r ∈ rows, r.cols.length = 6 ∧
      (∃ n : Nat, r.cat = (n : ℝ) ∧ n < 80) ∧
      0 ≤ r.conf ∧ r.conf ≤ 1 := by
  unfold inference at h
  rcases happ : apply_anchors model preds with _ | boxes
  · rw [happ] at h; exact absurd h (by simp)
  rw [happ] at h
  simp only [Option.some.injEq] at h
  subst h
  obtain ⟨hlen, _⟩ := apply_anchors_spec happ
  refine ⟨by simp [hlen], ⟨boxes, rfl, rfl⟩, ?_⟩
  intro r hr
  obtain ⟨b, hbmem, hbr⟩ := List.mem_map.mp hr
  obtain ⟨hc, hplen, hpb, _, _⟩ := apply_anchors_box_props happ b hbmem
  obtain ⟨hcat, hcpos, hclt⟩ := postprocessBox_spec model rescale hc hplen hpb
  subst hbr
  exact ⟨rfl, hcat, le_of_lt hcpos, le_of_lt hclt⟩

/-- Witness for C1: a single all-zero 16×16 'yolov3-tiny' feature map
produces exactly 3·16² = 768 detection rows. -/
theorem inference_one_row_per_anchor_witness :
    ∃ rows, inference "yolov3-tiny" (fun c => c) [zeroMap16] = some rows ∧
      rows.length = 768 := by
  obtain ⟨boxes, happ⟩ : ∃ bs,
      apply_anchors "yolov3-tiny" [zeroMap16] = some bs :=
    ⟨_, apply_anchors_singleton zeroMap16_decode⟩
  have hinf : inference "yolov3-tiny" (fun c => c) [zeroMap16] =
      some (boxes.map (postprocessBox "yolov3-tiny" (fun c => c))) := by
    unfold inference
    rw [happ]
  obtain ⟨hlen, _, _⟩ := inference_one_row_per_anchor _ _ _ _ hinf
  refine ⟨_, hinf, ?_⟩
  rw [hlen]
  norm_num [zeroMap16]

/-- C2 counterexample: on the all-zero 16×16 feature map of 'yolov3-tiny'
(stride 512/16 = 32, grid scale 1.0) the first decoded box — cell
(row 0, column 0), anchor 0 — has center x = 16, not
column · stride = 0 as the claim states. -/
theorem zero_map_decode_centers_counterexample :
    (((decodeMap "yolov3-tiny" zeroMap16).getD []).getD 0
        (Box.mk 0 0 0 0 0 [])).x = 16 ∧
    ¬ (((decodeMap "yolov3-tiny" zeroMap16).getD []).getD 0
        (Box.mk 0 0 0 0 0 [])).x = 0 := by
  have hz := decodeCell_zero zeroMap16_zero (512 / zeroMap16.size)
    [(81, 82), (135, 169), (344, 319)] (0 / (3 * zeroMap16.size))
    (0 / 3 % zeroMap16.size) (0 % 3)
  have hlt : (0 : ℕ) < zeroMap16.size * zeroMap16.size * 3 := by
    norm_num [zeroMap16]
  rw [zeroMap16_decode]
  constructor <;>
  · simp only [Option.getD_some, List.getD_eq_getElem?_getD,
      List.getElem?_map, List.getElem?_range hlt]
    simp only [Option.map_some', Option.getD_some]
    rw [hz.1]
    norm_num [zeroMap16]

/-- C2 (amended): on an all-zero raw feature map with grid scale 1.0, each
decoded box at cell (row i, column j) is centered at
((column, row) + 0.5) · stride — the cell's top-left corner shifted by
half a cell, since sigmoid(0) = 0.5 — with width and height equal to the
anchor prior for that stride and anchor index (exp(0) = 1). -/
theorem zero_map_decode_centers (model : String) (fm : FeatureMap)
    (boxes : List Box) (imgSize : Nat) (anchorList : List (Nat × Nat))
    (hzero : ∀ i j a c, fm.val i j a c = 0)
    (hImg : imageSizes model = some imgSize)
    (hanch : strideAnchors model (imgSize / fm.size) = some anchorList)
    (hscale : strideXyscales model (imgSize / fm.size) = some 1)
    (hdec : decodeMap model fm = some boxes)
    (i j a : Nat) (hi : i < fm.size) (hj : j < fm.size) (ha : a < 3) :
    ∃ hk : (i * fm.size + j) * 3 + a < boxes.length,
      (boxes.get ⟨(i * fm.size + j) * 3 + a, hk⟩).x
          = ((j : ℝ) + 0.5) * ((imgSize / fm.size : Nat) : ℝ) ∧
      (boxes.get ⟨(i * fm.size + j) * 3 + a, hk⟩).y
          = ((i : ℝ) + 0.5) * ((imgSize / fm.size : Nat) : ℝ) ∧
      (boxes.get ⟨(i * fm.size + j) * 3 + a, hk⟩).w
          = ((anchorList.getD a (0, 0)).1 : ℝ) ∧
      (boxes.get ⟨(i * fm.size + j) * 3 + a, hk⟩).h
          = ((anchorList.getD a (0, 0)).2 : ℝ) := by
  have hlen := decodeMap_length hdec
  have hk : (i * fm.size + j) * 3 + a < boxes.length := by
    rw [hlen]
    exact flat_index_lt hi hj ha
  refine ⟨hk, ?_⟩
  have hget := decodeMap_get hImg hanch hscale hdec _ hk
  obtain ⟨hdiv1, hdiv2, hdiv3⟩ := flat_index_components hj ha
  rw [hdiv1, hdiv2, hdiv3] at hget
  rw [hget]
  exact decodeCell_zero hzero (imgSize / fm.size) anchorList i j a

/-- Witness for C2 (amended): in the all-zero 16×16 'yolov3-tiny' map the
box at cell (row 1, column 2), anchor 0, has center x
(2 + 0.5) · 32 = 80. -/
theorem zero_map_decode_centers_witness :
    ∃ boxes, decodeMap "yolov3-tiny" zeroMap16 = some boxes ∧
      ∃ hk : (1 * zeroMap16.size + 2) * 3 + 0 < boxes.length,
        (boxes.get ⟨(1 * zeroMap16.size + 2) * 3 + 0, hk⟩).x = 80 := by
  obtain ⟨boxes, hdec⟩ : ∃ bs, decodeMap "yolov3-tiny" zeroMap16 = some bs :=
    ⟨_, zeroMap16_decode⟩
  obtain ⟨hk, hx, _, _, _⟩ := zero_map_decode_centers "yolov3-tiny" zeroMap16
    boxes 512 [(81, 82), (135, 169), (344, 319)] zeroMap16_zero
    zeroMap16_img zeroMap16_anchors zeroMap16_scale hdec 1 2 0
    (by norm_num [zeroMap16]) (by norm_num [zeroMap16]) (by norm_num)
  refine ⟨boxes, hdec, hk, ?_⟩
  rw [hx]
  norm_num [zeroMap16]

/-- C9: every decoded anchor box has strictly positive width and height
(exp of the raw value times a strictly positive anchor prior), so its
corner-form box — the detection row's coordinates before the external
rescale — satisfies x_min < x_max and y_min < y_max. -/
theorem decoded_boxes_positive_extent (model : String)
    (preds : List FeatureMap) (boxes : List Box)
    (h : apply_anchors model preds = some boxes) (b : Box)
    (hb : b ∈ boxes) :
    0 < b.w ∧ 0 < b.h ∧
    (toCorners b).x1 < (toCorners b).x2 ∧
    (toCorners b).y1 < (toCorners b).y2 := by
  obtain ⟨_, _, _, hw, hh⟩ := apply_anchors_box_props h b hb
  refine ⟨hw, hh, ?_, ?_⟩
  · show b.x - b.w * 0.5 < b.x + b.w * 0.5
    linarith
  · show b.y - b.h * 0.5 < b.y + b.h * 0.5
    linarith

/-- Witness for C9: the first box decoded from the all-zero 16×16
'yolov3-tiny' map has positive extent. -/
theorem decoded_boxes_positive_extent_witness :
    ∃ boxes, apply_anchors "yolov3-tiny" [zeroMap16] = some boxes ∧
      ∃ b ∈ boxes, 0 < b.w ∧ 0 < b.h ∧
        (toCorners b).x1 < (toCorners b).x2 ∧
        (toCorners b).y1 < (toCorners b).y2 := by
  obtain ⟨boxes, happ⟩ : ∃ bs,
      apply_anchors "yolov3-tiny" [zeroMap16] = some bs :=
    ⟨_, apply_anchors_singleton zeroMap16_decode⟩
  have h0 : 0 < boxes.length := by
    rw [(apply_anchors_spec happ).1]
    norm_num [zeroMap16]
  refine ⟨boxes, happ, boxes.get ⟨0, h0⟩, List.get_mem boxes 0 h0, ?_⟩
  exact decoded_boxes_positive_extent "yolov3-tiny" _ _ happ _
    (List.get_mem boxes 0 h0)

/-- C10: each row of the final detection matrix is a homogeneous 6-entry
float row whose category id (column 4) is the integer argmax index cast
to a float: a nonnegative whole number below 80 encoded as a real. -/
theorem detection_category_float_encoding (model : String)
    (rescale : XYXY → XYXY) (preds : List FeatureMap) (rows : List DetRow)
    (h : inference model rescale preds = some rows) (r : DetRow)
    (hr : r ∈ rows) :
    ∃ n : Nat, r.cat = (n : ℝ) ∧ n < 80 ∧ 0 ≤ r.cat ∧
      r.cols.length = 6 ∧ r.cols.get? 4 = some r.cat := by
  unfold inference at h
  rcases happ : apply_anchors model preds with _ | boxes
  · rw [happ] at h; exact absurd h (by simp)
  rw [happ] at h
  simp only [Option.some.injEq] at h
  subst h
  obtain ⟨b, hbmem, hbr⟩ := List.mem_map.mp hr
  obtain ⟨hc, hplen, hpb, _, _⟩ := apply_anchors_box_props happ b hbmem
  obtain ⟨⟨n, hcat, hn⟩, _, _⟩ :=
    postprocessBox_spec model rescale hc hplen hpb
  subst hbr
  exact ⟨n, hcat, hn, hcat ▸ Nat.cast_nonneg n, rfl, rfl⟩

/-- Witness for C10: the first detection row of the all-zero 16×16
'yolov3-tiny' run has a whole-number category id below 80. -/
theorem detection_category_float_encoding_witness :
    ∃ rows, inference "yolov3-tiny" (fun c => c) [zeroMap16] = some rows ∧
      ∃ r ∈ rows, ∃ n : Nat, r.cat = (n : ℝ) ∧ n < 80 ∧ 0 ≤ r.cat ∧
        r.cols.length = 6 ∧ r.cols.get? 4 = some r.cat := by
  obtain ⟨boxes, happ⟩ : ∃ bs,
      apply_anchors "yolov3-tiny" [zeroMap16] = some bs :=
    ⟨_, apply_anchors_singleton zeroMap16_decode⟩
  have hinf : inference "yolov3-tiny" (fun c => c) [zeroMap16] =
      some (boxes.map (postprocessBox "yolov3-tiny" (fun c => c))) := by
    unfold inference
    rw [happ]
  have h0 : 0 < (boxes.map
      (postprocessBox "yolov3-tiny" (fun c => c))).length := by
    rw [List.length_map, (apply_anchors_spec happ).1]
    norm_num [zeroMap16]
  refine ⟨_, hinf,
    (boxes.map (postprocessBox "yolov3-tiny" (fun c => c))).get ⟨0, h0⟩,
    List.get_mem _ 0 h0, ?_⟩
  exact detection_category_float_encoding "yolov3-tiny" _ _ _ hinf _
    (List.get_mem _ 0 h0)

end YoloSpec

